import Mathlib

/-!
Shallow embedding of the sudoku solver (`src/sudoku/puzzle.rs`,
`src/sudoku/square.rs`).  Rust's `HashSet<usize>` becomes `Finset Nat`,
`Vec<Square>` becomes `List Square`, `usize` becomes `Nat` (with the
64-bit overflow bound kept where the code's integer parsing can reject on
overflow), and text becomes `String` / `List Char`.  The unbounded
`loop` in `Puzzle::solve` is modelled with explicit fuel: `none` means
the loop has not finished within the given number of iterations.
-/

namespace Sudoku

/-- A cell of the grid: its value (0 = empty) and its candidate domain.
Models `Square` from `src/sudoku/square.rs`. -/
structure Square where
  value : Nat
  domain : Finset Nat
deriving DecidableEq

instance : Inhabited Square := ⟨⟨0, ∅⟩⟩

/-- Models `Square::new`: a fresh square has an empty domain. -/
def Square.new (value : Nat) : Square := ⟨value, ∅⟩

/-- Models `Square::reset`: insert `1..=range` into the existing domain. -/
def Square.reset (sq : Square) (range : Nat) : Square :=
  ⟨sq.value, sq.domain ∪ Finset.Icc 1 range⟩

/-- Models `Square::is_valid`: `value > 0 && value <= max || !domain.is_empty()`. -/
def Square.is_valid (sq : Square) (max : Nat) : Bool :=
  decide ((0 < sq.value ∧ sq.value ≤ max) ∨ sq.domain ≠ ∅)

/-- Models `Square::clear_domain`. -/
def Square.clear_domain (sq : Square) : Square := ⟨sq.value, ∅⟩

/-- Models `Square::remove_from_domain` (the returned `bool` is unused by callers). -/
def Square.remove_from_domain (sq : Square) (value : Nat) : Square :=
  ⟨sq.value, sq.domain.erase value⟩

/-- Models `Square::get_domain_size`. -/
def Square.get_domain_size (sq : Square) : Nat := sq.domain.card

/-- Models `Square::set_value_from_domain`: only when the domain has exactly
one element is that element drained into `value`; otherwise nothing happens
(the `_ => ()` match arm). -/
def Square.set_value_from_domain (sq : Square) : Square :=
  if sq.domain.card = 1 then ⟨sq.domain.min.untop' sq.value, ∅⟩ else sq

/-! ### Text handling

`usize` parsing and the two tokenizers used by the constructors. -/

/-- 64-bit `usize::MAX`; `str::parse::<usize>` fails above it. -/
def usizeMax : Nat := 2 ^ 64 - 1

/-- Accumulate decimal digits; fail at the first non-digit character. -/
def parse_digits_aux (acc : Nat) : List Char → Option Nat
  | [] => some acc
  | c :: rest =>
      if c.isDigit then parse_digits_aux (acc * 10 + (c.toNat - 48)) rest else none

/-- Models `str::parse::<usize>`: an optional leading plus sign, then one or
more decimal digits, rejecting the empty string and overflow. -/
def parse_usize (t : List Char) : Option Nat :=
  match t with
  | [] => none
  | c :: rest =>
      let digits := if c = '+' then rest else t
      match digits with
      | [] => none
      | _ =>
          match parse_digits_aux 0 digits with
          | some n => if n ≤ usizeMax then some n else none
          | none => none

/-- Models Rust `str::split(" ")`: split at every single space character,
keeping empty tokens. -/
def split_space : List Char → List (List Char)
  | [] => [[]]
  | c :: rest =>
      match split_space rest with
      | [] => [[c]]
      | t :: ts => if c = ' ' then [] :: t :: ts else (c :: t) :: ts

/-- Split at every whitespace character, keeping empty tokens. -/
def split_ws_raw : List Char → List (List Char)
  | [] => [[]]
  | c :: rest =>
      match split_ws_raw rest with
      | [] => [[c]]
      | t :: ts => if c.isWhitespace then [] :: t :: ts else (c :: t) :: ts

/-- Models Rust `str::split_whitespace`: whitespace-separated non-empty tokens. -/
def split_ws (l : List Char) : List (List Char) :=
  (split_ws_raw l).filter (fun t => decide (t ≠ []))

/-- Digit character for a value below ten. -/
def digit_char (d : Nat) : Char := Char.ofNat (48 + d)

/-- Decimal digits of `n`, most significant first, by fuelled recursion. -/
def nat_digits_aux : Nat → Nat → List Char
  | 0, n => [digit_char (n % 10)]
  | fuel + 1, n =>
      if n < 10 then [digit_char n] else nat_digits_aux fuel (n / 10) ++ [digit_char (n % 10)]

/-- Models Rust's `Display` for `usize` values. -/
def nat_chars (n : Nat) : List Char := nat_digits_aux n n

/-! ### Puzzle -/

/-- Models `Puzzle` from `src/sudoku/puzzle.rs`. -/
structure Puzzle where
  dimension : Nat
  squares : List Square
deriving DecidableEq

/-- Models `(n as f64).sqrt() as usize`: the floor square root (exact for
the grid sizes involved, where `f64.sqrt` is exactly rounded). -/
def sqrt_floor (n : Nat) : Nat :=
  ((List.range (n + 1)).filter (fun k => decide (k * k ≤ n))).foldl Nat.max 0

/-- Models `Puzzle::reset_domains`. -/
def Puzzle.reset_domains (p : Puzzle) : Puzzle :=
  ⟨p.dimension, p.squares.map (fun sq => sq.reset p.dimension)⟩

/-- Models `Puzzle::read_from_string`: split on single spaces, keep the
tokens that parse as `usize`, make squares, take the floor square root of
the count as the dimension, and reset all domains. -/
def Puzzle.read_from_string (source : String) : Puzzle :=
  let squares := ((split_space source.toList).filterMap parse_usize).map Square.new
  let size := squares.length
  let dimension := sqrt_floor size
  Puzzle.reset_domains ⟨dimension, squares⟩

/-- Models `Puzzle::read_from_file` applied to a file whose entire contents
are `contents` (the `read_to_string` step is the only part elided):
tokenize on any whitespace, then proceed as the string constructor does. -/
def read_from_file_contents (contents : String) : Puzzle :=
  let squares := ((split_ws contents.toList).filterMap parse_usize).map Square.new
  let size := squares.length
  let dimension := sqrt_floor size
  Puzzle.reset_domains ⟨dimension, squares⟩

/-- Fuelled version of `Iterator::step_by`: keep the head, then skip
`stp - 1` elements, with fuel bounding the recursion depth. -/
def step_by_aux {α : Type} (stp : Nat) : Nat → List α → List α
  | _, [] => []
  | 0, a :: _ => [a]
  | fuel + 1, a :: rest => a :: step_by_aux stp fuel (rest.drop (stp - 1))

/-- Models `.step_by(stp)` on a list iterator (the fuel `l.length` always
suffices because each step consumes at least one element). -/
def step_by {α : Type} (stp : Nat) (l : List α) : List α := step_by_aux stp l.length l

/-- Models `Puzzle::get_column`: skip `x`, step by the dimension, keep the
non-zero values. -/
def get_column (dim : Nat) (sqs : List Square) (x : Nat) : List Nat :=
  ((step_by dim (sqs.drop x)).filter (fun sq => decide (sq.value ≠ 0))).map Square.value

/-- Models `Puzzle::get_row`: the slice `[y*dim .. y*dim+dim]`, keeping the
non-zero values. -/
def get_row (dim : Nat) (sqs : List Square) (y : Nat) : List Nat :=
  (((sqs.drop (y * dim)).take dim).filter (fun sq => decide (sq.value ≠ 0))).map Square.value

/-- Models `Puzzle::get_group`: block rows are taken starting at
`initial + counter * group_dimension^2` (the code's stride), keeping the
non-zero values. -/
def get_group (dim : Nat) (sqs : List Square) (x y : Nat) : List Nat :=
  let gd := sqrt_floor dim
  let gix := x / gd * gd
  let giy := y / gd * gd
  let initial := gix + giy * dim
  (((List.range gd).foldl
      (fun acc counter => acc ++ (sqs.drop (initial + counter * gd ^ 2)).take gd) []).filter
    (fun sq => decide (sq.value ≠ 0))).map Square.value

/-- Models `Iterator::position`: index of the first element satisfying `p`. -/
def find_idx_b (p : Square → Bool) : List Square → Option Nat
  | [] => none
  | sq :: rest => if p sq then some 0 else (find_idx_b p rest).map (· + 1)

/-- Models `Puzzle::find_next_n_domain`. -/
def find_next_n_domain (n : Nat) (sqs : List Square) : Option Nat :=
  find_idx_b (fun sq => decide (sq.get_domain_size = n)) sqs

/-- Models `Puzzle::find_next_empty_square`. -/
def find_next_empty_square (sqs : List Square) : Option Nat :=
  find_idx_b (fun sq => decide (sq.value = 0)) sqs

/-- Insert into a sorted list of naturals, keeping it sorted. -/
def insert_sorted (v : Nat) : List Nat → List Nat
  | [] => [v]
  | a :: rest => if v ≤ a then v :: a :: rest else a :: insert_sorted v rest

/-- Models `Vec::sort` on naturals (insertion sort; only the resulting
order matters to callers). -/
def sort_nat (l : List Nat) : List Nat := l.foldr insert_sorted []

/-- Models `Vec::dedup`: remove consecutive duplicates. -/
def dedup_consec : List Nat → List Nat
  | [] => []
  | [a] => [a]
  | a :: b :: rest =>
      if a = b then dedup_consec (b :: rest) else a :: dedup_consec (b :: rest)

/-- The `to_be_removed` list built by `Puzzle::update_domains` for the cell
at `counter`: column, row and group values, sorted and deduplicated. -/
def domain_removals (dim : Nat) (sqs : List Square) (counter : Nat) : List Nat :=
  dedup_consec (sort_nat
    ((get_column dim sqs (counter % dim) ++ get_row dim sqs (counter / dim)) ++
      get_group dim sqs (counter % dim) (counter / dim)))

/-- The new square the `update_domains` loop body produces for the cell at
`counter`: clear the domain of a fixed cell, otherwise remove every peer
value from the domain. -/
def visit_square (dim : Nat) (sqs : List Square) (counter : Nat) (sq : Square) : Square :=
  if sq.value ≠ 0 then sq.clear_domain
  else (domain_removals dim sqs counter).foldl Square.remove_from_domain sq

/-- One iteration of the `update_domains` loop, updating the cell at `counter`. -/
def update_visit (dim : Nat) (sqs : List Square) (counter : Nat) : List Square :=
  match sqs.get? counter with
  | none => sqs
  | some sq => sqs.set counter (visit_square dim sqs counter sq)

/-- Models `Puzzle::update_domains` on the square list. -/
def update_domains_l (dim : Nat) (sqs : List Square) : List Square :=
  (List.range sqs.length).foldl (update_visit dim) sqs

/-- Models `Puzzle::update_domains`. -/
def Puzzle.update_domains (p : Puzzle) : Puzzle :=
  ⟨p.dimension, update_domains_l p.dimension p.squares⟩

/-- The `all_distinct` check as the code performs it: insert each value
into a set, failing on the first collision.  The accumulator models the
`HashSet` named `set` in `Puzzle::is_valid`. -/
def all_distinct_aux (seen : Finset Nat) : List Nat → Bool
  | [] => true
  | v :: rest => if v ∈ seen then false else all_distinct_aux (insert v seen) rest

/-- Duplicate detection by set insertion, starting from the empty set. -/
def all_distinct (l : List Nat) : Bool := all_distinct_aux ∅ l

/-- Models `Puzzle::is_valid` on the square list: every square locally
valid, and no duplicated non-zero value in any column, row, or group. -/
def is_valid_l (dim : Nat) (sqs : List Square) : Bool :=
  sqs.all (fun sq => sq.is_valid dim) &&
  (List.range dim).all (fun counter =>
    all_distinct (get_column dim sqs counter) &&
    all_distinct (get_row dim sqs counter) &&
    (let gd := sqrt_floor dim
     all_distinct (get_group dim sqs (counter % gd * gd) (counter / gd * gd))))

/-- Models `Puzzle::is_valid`. -/
def Puzzle.is_valid (p : Puzzle) : Bool := is_valid_l p.dimension p.squares

/-- Models `Puzzle::all_filled`. -/
def Puzzle.all_filled (p : Puzzle) : Bool :=
  p.squares.all (fun sq => decide (sq.value ≠ 0))

/-- Models `Puzzle::is_solved`. -/
def Puzzle.is_solved (p : Puzzle) : Bool := p.is_valid && p.all_filled

/-- Models the `Snapshot` struct pushed onto the history stack. -/
structure Snapshot where
  squares : List Square
  index : Nat
deriving DecidableEq

/-- Result of one iteration of the `loop` in `Puzzle::solve`:
continue with a new state, break with success, or return the error. -/
inductive LoopRes where
  | cont : List Square → List Snapshot → LoopRes
  | ok : List Square → LoopRes
  | err : List Square → LoopRes
deriving DecidableEq

/-- The error message `Puzzle::solve` returns. -/
def invalid_msg : String := "The sudoku puzzle is invalid"

instance {ε α : Type} [DecidableEq ε] [DecidableEq α] : DecidableEq (Except ε α)
  | Except.ok x, Except.ok y => decidable_of_iff (x = y) (by simp)
  | Except.ok _, Except.error _ => isFalse (by simp)
  | Except.error _, Except.ok _ => isFalse (by simp)
  | Except.error e, Except.error f => decidable_of_iff (e = f) (by simp)

/-- Models the `Some(Snapshot{..})` arm of the backtracking match: record
the value currently at the snapshot's index, restore the squares from the
snapshot, and remove that value from the restored cell's domain. -/
def restore_snapshot (u : List Square) (snap : Snapshot) : List Square :=
  let wrong_value := (u.getD snap.index default).value
  match snap.squares.get? snap.index with
  | none => snap.squares
  | some sq => snap.squares.set snap.index (sq.remove_from_domain wrong_value)

/-- The selection phase at the bottom of the `solve` loop: assign a cell
with a one-element domain, otherwise push a snapshot and call
`set_value_from_domain` on a two-element-domain or empty cell, otherwise
break with success. -/
def phase3 (sqs : List Square) (hist : List Snapshot) : LoopRes :=
  match find_next_n_domain 1 sqs with
  | some index =>
      match sqs.get? index with
      | none => LoopRes.cont sqs hist
      | some sq => LoopRes.cont (sqs.set index sq.set_value_from_domain) hist
  | none =>
      match (find_next_n_domain 2 sqs).orElse (fun _ => find_next_empty_square sqs) with
      | some index =>
          match sqs.get? index with
          | none => LoopRes.cont sqs (⟨sqs, index⟩ :: hist)
          | some sq => LoopRes.cont (sqs.set index sq.set_value_from_domain) (⟨sqs, index⟩ :: hist)
      | none => LoopRes.ok sqs

/-- One iteration of the `loop` in `Puzzle::solve`: propagate domains,
backtrack (or fail) if invalid, then run the selection phase. -/
def solve_iter (dim : Nat) (sqs : List Square) (hist : List Snapshot) : LoopRes :=
  let u := update_domains_l dim sqs
  if is_valid_l dim u then phase3 u hist
  else
    match hist with
    | snap :: rest => phase3 (restore_snapshot u snap) rest
    | [] => LoopRes.err u

/-- The `solve` loop with fuel: `none` when the fuel runs out before the
loop finishes, otherwise the Rust return value together with the final
square list. -/
def solve_loop (dim : Nat) : Nat → List Square → List Snapshot →
    Option (Except String Unit × List Square)
  | 0, _, _ => none
  | fuel + 1, sqs, hist =>
      match solve_iter dim sqs hist with
      | LoopRes.cont s h => solve_loop dim fuel s h
      | LoopRes.ok s => some (Except.ok (), s)
      | LoopRes.err s => some (Except.error invalid_msg, s)

/-- Models `Puzzle::solve` with fuel bounding the number of loop iterations. -/
def Puzzle.solve (p : Puzzle) (fuel : Nat) : Option (Except String Unit × List Square) :=
  let p0 := p.reset_domains
  solve_loop p0.dimension fuel p0.squares []

/-- Fuelled chunking of the square list into rows (`slice::chunks`). -/
def chunks_of_aux (n : Nat) : Nat → List Square → List (List Square)
  | _, [] => []
  | 0, l => [l]
  | fuel + 1, l => l.take n :: chunks_of_aux n fuel (l.drop n)

/-- Models `slice::chunks(n)` for `n > 0` (the only way the code calls it). -/
def chunks_of (n : Nat) (l : List Square) : List (List Square) := chunks_of_aux n l.length l

/-- Models `impl fmt::Display for Puzzle`: each value followed by one
space, a newline after each row, and one final newline. -/
def display_chars (p : Puzzle) : List Char :=
  ((chunks_of p.dimension p.squares).foldl
    (fun acc row => (row.foldl (fun a sq => a ++ nat_chars sq.value ++ [' ']) acc) ++ ['\n'])
    []) ++ ['\n']

/-- The rendered text of a puzzle as a string. -/
def Puzzle.display (p : Puzzle) : String := ⟨display_chars p⟩

/-! ### Concrete inputs used by the claims -/

/-- A 4-cell grid of blanks. -/
def blank4_str : String := "0 0 0 0"

/-- The puzzle read from `blank4_str` (dimension 2). -/
def p_blank4 : Puzzle := Puzzle.read_from_string blank4_str

/-- The square list `solve` starts its loop from on `p_blank4`. -/
def blank4_state : List Square := p_blank4.reset_domains.squares

/-- A fully filled 2x2 grid whose first cell holds the out-of-range value 5. -/
def five_str : String := "5 1 2 3"

/-- The puzzle read from `five_str`. -/
def p_five : Puzzle := Puzzle.read_from_string five_str

/-- The already-solved 4x4 grid from the spec's Scenario A. -/
def solved4_str : String := "1 2 3 4 3 4 1 2 2 1 4 3 4 3 2 1"

/-- The puzzle read from `solved4_str`. -/
def p4 : Puzzle := Puzzle.read_from_string solved4_str

/-- Two integers separated by a newline rather than a space. -/
def nl_str : String := "1\n2"

/-- A 2x2 grid with two blanks, used to exercise domain updating. -/
def pair_str : String := "0 1 1 0"

/-- The puzzle read from `pair_str`. -/
def p_pair : Puzzle := Puzzle.read_from_string pair_str

/-- A one-cell grid state whose only cell is unfixed with an empty domain. -/
def p_zero_empty : Puzzle := ⟨1, [⟨0, ∅⟩]⟩

/-- A one-cell square list that is invalid after propagation (fixed value 2
on a dimension-1 grid). -/
def bad_state : List Square := [⟨2, ∅⟩]

/-- A snapshot of a one-cell state whose recorded cell is blank. -/
def snap_a : Snapshot := ⟨[⟨0, ∅⟩], 0⟩

/-- The empty input string. -/
def empty_str : String := ""

/-! ### Claim theorems: evaluation-based results -/

/-- C1: the claim says that at search step 3b (no one-element domain, but a
two-element domain or an empty cell) `solve` pushes a snapshot and then
assigns the chosen cell the smallest candidate from its domain.  The code
does push the snapshot, but `set_value_from_domain` is a no-op unless the
domain has exactly one element, so the cell keeps value 0 and its
two-element domain `{1, 2}` instead of being assigned 1. -/
theorem c1_guess_pushes_snapshot_but_assigns_nothing :
    p_blank4.dimension = 2 ∧
    find_next_n_domain 1 (update_domains_l 2 blank4_state) = none ∧
    find_next_n_domain 2 (update_domains_l 2 blank4_state) = some 0 ∧
    solve_iter 2 blank4_state [] = LoopRes.cont blank4_state [⟨blank4_state, 0⟩] ∧
    (blank4_state.getD 0 default).value = 0 ∧
    (blank4_state.getD 0 default).domain = {1, 2} := by decide

/-- One iteration of the solve loop on the all-blank 2x2 grid is a
fixpoint of the square state: it only pushes another snapshot. -/
theorem blank4_iter (hist : List Snapshot) :
    solve_iter 2 blank4_state hist =
      LoopRes.cont blank4_state (⟨blank4_state, 0⟩ :: hist) := rfl

/-- The solve loop on the all-blank 2x2 grid never finishes, with any fuel. -/
theorem blank4_loop_stuck :
    ∀ (fuel : Nat) (hist : List Snapshot), solve_loop 2 fuel blank4_state hist = none := by
  intro fuel
  induction fuel with
  | zero => intro hist; rfl
  | succ n ih =>
      intro hist
      rw [solve_loop, blank4_iter]
      exact ih _

/-- C2: the claim says `solve` terminates on every input grid.  On the
all-blank 2x2 grid the loop never terminates: the branch cell is never
assigned (`set_value_from_domain` no-ops on a two-element domain), so every
iteration reproduces the same squares and pushes one more snapshot. -/
theorem c2_solve_diverges_on_blank4 : ∀ fuel : Nat, p_blank4.solve fuel = none := by
  intro fuel
  exact blank4_loop_stuck fuel []

/-- C4: the claim says a fixed cell with value outside `[1, N]` makes
`is_valid` false regardless of that cell's domain.  On the freshly read
grid `"5 1 2 3"` (dimension 2) the first cell is fixed at 5 > 2, yet
`is_valid` returns true, because `Square::is_valid` accepts any cell whose
domain is non-empty and construction leaves every domain full. -/
theorem c4_out_of_range_fixed_cell_accepted :
    p_five.dimension = 2 ∧
    (p_five.squares.getD 0 default).value = 5 ∧
    ¬(p_five.squares.getD 0 default).value ≤ p_five.dimension ∧
    p_five.is_valid = true := by decide

/-- C5 counterexample: the claim says `update_domains` recomputes an
unfixed cell's domain as `{1..N}` minus the peer values, independent of
the previous domain contents.  On a one-cell grid whose unfixed cell has
an empty domain and no peers, the claim demands domain `{1}`, but the code
only ever removes values, so the domain stays empty. -/
theorem c5_counterexample_no_recomputation :
    p_zero_empty.update_domains.squares = [⟨0, ∅⟩] ∧
    Finset.Icc 1 1 \
        ((get_column 1 p_zero_empty.squares 0).toFinset ∪
          (get_row 1 p_zero_empty.squares 0).toFinset ∪
          (get_group 1 p_zero_empty.squares 0 0).toFinset) = ({1} : Finset Nat) ∧
    (∅ : Finset Nat) ≠ ({1} : Finset Nat) := by decide

/-- C6 counterexample: the claim says every fully filled grid on which
`is_valid` holds is solved and `solve` succeeds.  The grid `"5 1 2 3"` is
fully filled and `is_valid` holds (see C4), yet `solve` returns the
Invalid error: its first `update_domains` clears every domain, after which
the out-of-range cell 5 makes the grid invalid with an empty history. -/
theorem c6_counterexample_filled_valid_but_solve_fails :
    p_five.all_filled = true ∧ p_five.is_valid = true ∧ p_five.is_solved = true ∧
    p_five.solve 1 =
      some (Except.error invalid_msg, [⟨5, ∅⟩, ⟨1, ∅⟩, ⟨2, ∅⟩, ⟨3, ∅⟩]) := by decide

/-- C7: the claim says rendering a fully solved grid and re-parsing it with
the string constructor yields an identical value sequence.  For the solved
4x4 grid the rendered text places a newline before each later row's first
value, `read_from_string` splits on single spaces only, and tokens such as
`"\n3"` fail to parse and are skipped: re-parsing yields 13 values, not
the original 16. -/
theorem c7_display_reparse_loses_values :
    p4.is_solved = true ∧
    p4.squares.map Square.value = [1, 2, 3, 4, 3, 4, 1, 2, 2, 1, 4, 3, 4, 3, 2, 1] ∧
    (Puzzle.read_from_string p4.display).squares.map Square.value =
      [1, 2, 3, 4, 4, 1, 2, 1, 4, 3, 3, 2, 1] ∧
    (Puzzle.read_from_string p4.display).squares.map Square.value ≠
      p4.squares.map Square.value := by decide

/-- C8: the claim says the string constructor tokenizes on any whitespace
and that file-based construction matches it on the same text.  On the text
`"1\n2"` the file path (`split_whitespace`) yields the two cells `[1, 2]`,
while `read_from_string` (which splits on single spaces only) parses no
token and yields the empty grid. -/
theorem c8_file_and_string_construction_differ :
    (read_from_file_contents nl_str).squares.map Square.value = [1, 2] ∧
    (read_from_file_contents nl_str).dimension = 1 ∧
    (Puzzle.read_from_string nl_str).squares.map Square.value = [] ∧
    (Puzzle.read_from_string nl_str).dimension = 0 := by decide

/-! ### Helper lemmas about lists -/

theorem get?_some_lt {α : Type} :
    ∀ (l : List α) (n : Nat) (a : α), l.get? n = some a → n < l.length
  | [], n, a, h => by simp [List.get?] at h
  | _ :: _, 0, _, _ => by simp
  | x :: xs, n + 1, a, h => by
      have := get?_some_lt xs n a h
      simpa [Nat.succ_lt_succ_iff] using this

theorem get?_of_lt {α : Type} :
    ∀ (l : List α) (n : Nat), n < l.length → ∃ a, l.get? n = some a
  | [], n, h => absurd h (by simp)
  | x :: _, 0, _ => ⟨x, rfl⟩
  | _ :: xs, n + 1, h => get?_of_lt xs n (by simpa [Nat.succ_lt_succ_iff] using h)

theorem get?_mem_own {α : Type} :
    ∀ (l : List α) (n : Nat) (a : α), l.get? n = some a → a ∈ l
  | [], n, a, h => by simp [List.get?] at h
  | x :: xs, 0, a, h => by
      have hx : x = a := by simpa using h
      rw [← hx]
      exact List.mem_cons_self x xs
  | x :: xs, n + 1, a, h => List.mem_cons_of_mem x (get?_mem_own xs n a h)

theorem set_get?_self {α : Type} :
    ∀ (l : List α) (n : Nat) (a : α), n < l.length → (l.set n a).get? n = some a
  | [], n, a, h => absurd h (by simp)
  | _ :: _, 0, _, _ => rfl
  | _ :: xs, n + 1, a, h => set_get?_self xs n a (by simpa [Nat.succ_lt_succ_iff] using h)

theorem set_get?_other {α : Type} :
    ∀ (l : List α) (n m : Nat) (a : α), n ≠ m → (l.set n a).get? m = l.get? m
  | [], _, _, _, _ => rfl
  | _ :: _, 0, 0, _, h => absurd rfl h
  | _ :: _, 0, _ + 1, _, _ => rfl
  | _ :: _, _ + 1, 0, _, _ => rfl
  | _ :: xs, n + 1, m + 1, a, h => set_get?_other xs n m a (fun e => h (by rw [e]))

theorem get?_map_eq {α β : Type} (f : α → β) :
    ∀ (l : List α) (n : Nat), (l.map f).get? n = (l.get? n).map f
  | [], n => by cases n <;> rfl
  | _ :: _, 0 => rfl
  | _ :: xs, n + 1 => get?_map_eq f xs n

theorem filterMap_none {α β : Type} (f : α → Option β) :
    ∀ l : List α, (∀ a ∈ l, f a = none) → l.filterMap f = []
  | [], _ => rfl
  | a :: l, h => by
      rw [List.filterMap_cons, h a (List.mem_cons_self a l),
        filterMap_none f l (fun b hb => h b (List.mem_cons_of_mem a hb))]

/-! ### Helper lemmas about squares and domain updating -/

theorem square_eq_mk (a : Square) (v : Nat) (d : Finset Nat)
    (h1 : a.value = v) (h2 : a.domain = d) : a = ⟨v, d⟩ := by
  cases a
  cases h1
  cases h2
  rfl

theorem map_value_set (l : List Square) (n : Nat) (sq w : Square)
    (h : l.get? n = some sq) (hw : w.value = sq.value) :
    (l.set n w).map Square.value = l.map Square.value := by
  induction l generalizing n with
  | nil => rfl
  | cons x xs ih =>
      cases n with
      | zero =>
          have hx : x = sq := by simpa using h
          simp [List.set, hw, hx]
      | succ n => simp [List.set, ih n h]

theorem remove_foldl_value :
    ∀ (l : List Nat) (sq : Square), (l.foldl Square.remove_from_domain sq).value = sq.value
  | [], _ => rfl
  | v :: l, sq => by
      have := remove_foldl_value l (sq.remove_from_domain v)
      simpa [Square.remove_from_domain] using this

theorem remove_foldl_domain :
    ∀ (l : List Nat) (sq : Square),
      (l.foldl Square.remove_from_domain sq).domain = sq.domain \ l.toFinset
  | [], sq => by simp
  | v :: l, sq => by
      have := remove_foldl_domain l (sq.remove_from_domain v)
      rw [List.foldl_cons, this]
      ext x
      simp [Square.remove_from_domain, Finset.mem_erase]
      tauto

theorem visit_square_value (dim : Nat) (sqs : List Square) (c : Nat) (sq : Square) :
    (visit_square dim sqs c sq).value = sq.value := by
  unfold visit_square
  by_cases h : sq.value ≠ 0
  · simp [h, Square.clear_domain]
  · simp [h, remove_foldl_value]

theorem update_visit_map_value (dim : Nat) (sqs : List Square) (c : Nat) :
    (update_visit dim sqs c).map Square.value = sqs.map Square.value := by
  unfold update_visit
  cases h : sqs.get? c with
  | none => rfl
  | some sq => exact map_value_set sqs c sq _ h (visit_square_value dim sqs c sq)

theorem foldl_update_visit_map_value (dim : Nat) :
    ∀ (cs : List Nat) (sqs : List Square),
      (cs.foldl (update_visit dim) sqs).map Square.value = sqs.map Square.value
  | [], _ => rfl
  | c :: cs, sqs => by
      rw [List.foldl_cons, foldl_update_visit_map_value dim cs (update_visit dim sqs c),
        update_visit_map_value]

theorem update_domains_l_map_value (dim : Nat) (sqs : List Square) :
    (update_domains_l dim sqs).map Square.value = sqs.map Square.value :=
  foldl_update_visit_map_value dim (List.range sqs.length) sqs

theorem update_domains_l_length (dim : Nat) (sqs : List Square) :
    (update_domains_l dim sqs).length = sqs.length := by
  have h := congrArg List.length (update_domains_l_map_value dim sqs)
  simpa using h

/-- C9: `update_domains` never touches a cell's value (and leaves the
dimension alone): the value sequence after the call is exactly the value
sequence before it. -/
theorem c9_update_domains_preserves_values (p : Puzzle) :
    p.update_domains.squares.map Square.value = p.squares.map Square.value ∧
    p.update_domains.dimension = p.dimension :=
  ⟨update_domains_l_map_value p.dimension p.squares, rfl⟩

/-! ### Peer extraction depends only on the value sequence -/

theorem filter_map_value (l : List Square) :
    (l.filter (fun sq => decide (sq.value ≠ 0))).map Square.value =
      (l.map Square.value).filter (fun v => decide (v ≠ 0)) := by
  induction l with
  | nil => rfl
  | cons sq l ih =>
      rw [List.map_cons, List.filter_cons, List.filter_cons]
      by_cases h : sq.value ≠ 0
      · rw [if_pos (decide_eq_true h), if_pos (decide_eq_true h), List.map_cons, ih]
      · have hf : decide (sq.value ≠ 0) = false := decide_eq_false h
        rw [hf]
        simp only [Bool.false_eq_true, if_false]
        exact ih

theorem step_by_aux_map {α β : Type} (f : α → β) (stp : Nat) :
    ∀ (fuel : Nat) (l : List α),
      (step_by_aux stp fuel l).map f = step_by_aux stp fuel (l.map f)
  | fuel, [] => by cases fuel <;> rfl
  | 0, a :: rest => rfl
  | fuel + 1, a :: rest => by
      show f a :: (step_by_aux stp fuel (rest.drop (stp - 1))).map f =
        f a :: step_by_aux stp fuel ((rest.map f).drop (stp - 1))
      rw [step_by_aux_map f stp fuel (rest.drop (stp - 1)), List.map_drop]

theorem step_by_map {α β : Type} (f : α → β) (stp : Nat) (l : List α) :
    (step_by stp l).map f = step_by stp (l.map f) := by
  unfold step_by
  rw [List.length_map]
  exact step_by_aux_map f stp l.length l

theorem get_column_eq_values (dim : Nat) (s : List Square) (x : Nat) :
    get_column dim s x = (step_by dim ((s.map Square.value).drop x)).filter
      (fun v => decide (v ≠ 0)) := by
  unfold get_column
  rw [filter_map_value, step_by_map, List.map_drop]

theorem get_column_congr (dim x : Nat) {s t : List Square}
    (h : s.map Square.value = t.map Square.value) :
    get_column dim s x = get_column dim t x := by
  rw [get_column_eq_values, get_column_eq_values, h]

theorem get_row_eq_values (dim : Nat) (s : List Square) (y : Nat) :
    get_row dim s y = (((s.map Square.value).drop (y * dim)).take dim).filter
      (fun v => decide (v ≠ 0)) := by
  unfold get_row
  rw [filter_map_value, List.map_take, List.map_drop]

theorem get_row_congr (dim y : Nat) {s t : List Square}
    (h : s.map Square.value = t.map Square.value) :
    get_row dim s y = get_row dim t y := by
  rw [get_row_eq_values, get_row_eq_values, h]

theorem group_fold_map_value (gd : Nat) (initial : Nat) (s : List Square) :
    ∀ (rs : List Nat) (acc : List Square),
      ((rs.foldl (fun a c => a ++ (s.drop (initial + c * gd ^ 2)).take gd) acc)).map
          Square.value =
        rs.foldl (fun a c => a ++ (((s.map Square.value).drop (initial + c * gd ^ 2)).take gd))
          (acc.map Square.value)
  | [], acc => rfl
  | r :: rs, acc => by
      rw [List.foldl_cons, List.foldl_cons,
        group_fold_map_value gd initial s rs (acc ++ (s.drop (initial + r * gd ^ 2)).take gd)]
      rw [List.map_append, List.map_take, List.map_drop]

theorem get_group_eq_values (dim : Nat) (s : List Square) (x y : Nat) :
    get_group dim s x y =
      (((List.range (sqrt_floor dim)).foldl
          (fun a c => a ++ (((s.map Square.value).drop
            ((x / sqrt_floor dim * sqrt_floor dim +
              y / sqrt_floor dim * sqrt_floor dim * dim) + c * sqrt_floor dim ^ 2)).take
            (sqrt_floor dim))) []).filter (fun v => decide (v ≠ 0))) := by
  show ((((List.range (sqrt_floor dim)).foldl
      (fun a c => a ++ ((s.drop ((x / sqrt_floor dim * sqrt_floor dim +
        y / sqrt_floor dim * sqrt_floor dim * dim) + c * sqrt_floor dim ^ 2)).take
          (sqrt_floor dim))) []).filter
      (fun sq => decide (sq.value ≠ 0))).map Square.value) = _
  rw [filter_map_value,
    group_fold_map_value (sqrt_floor dim)
      ((x / sqrt_floor dim * sqrt_floor dim + y / sqrt_floor dim * sqrt_floor dim * dim))
      s (List.range (sqrt_floor dim)) []]
  rfl

theorem get_group_congr (dim x y : Nat) {s t : List Square}
    (h : s.map Square.value = t.map Square.value) :
    get_group dim s x y = get_group dim t x y := by
  rw [get_group_eq_values, get_group_eq_values, h]

theorem domain_removals_congr (dim c : Nat) {s t : List Square}
    (h : s.map Square.value = t.map Square.value) :
    domain_removals dim s c = domain_removals dim t c := by
  unfold domain_removals
  rw [get_column_congr dim (c % dim) h, get_row_congr dim (c / dim) h,
    get_group_congr dim (c % dim) (c / dim) h]

theorem visit_square_congr (dim c : Nat) (sq : Square) {s t : List Square}
    (h : s.map Square.value = t.map Square.value) :
    visit_square dim s c sq = visit_square dim t c sq := by
  unfold visit_square
  rw [domain_removals_congr dim c h]

/-! ### The update loop, cell by cell -/

theorem update_visit_get?_other (dim : Nat) (sqs : List Square) (c i : Nat)
    (hne : c ≠ i) : (update_visit dim sqs c).get? i = sqs.get? i := by
  unfold update_visit
  cases h : sqs.get? c with
  | none => rfl
  | some sq => exact set_get?_other sqs c i _ hne

theorem update_visit_get?_self (dim : Nat) (sqs : List Square) (c : Nat) (sq : Square)
    (h : sqs.get? c = some sq) :
    (update_visit dim sqs c).get? c = some (visit_square dim sqs c sq) := by
  unfold update_visit
  rw [h]
  exact set_get?_self sqs c _ (get?_some_lt sqs c sq h)

theorem foldl_update_visit_get? (dim : Nat) :
    ∀ (cs : List Nat) (sqs : List Square) (i : Nat) (sq : Square),
      cs.Nodup → sqs.get? i = some sq →
      (cs.foldl (update_visit dim) sqs).get? i =
        some (if i ∈ cs then visit_square dim sqs i sq else sq)
  | [], sqs, i, sq, _, h => by simpa using h
  | c :: cs, sqs, i, sq, hnd, h => by
      rw [List.foldl_cons]
      have hc : c ∉ cs := (List.nodup_cons.mp hnd).1
      have hnd' : cs.Nodup := (List.nodup_cons.mp hnd).2
      by_cases hic : i = c
      · subst hic
        have h1 : (update_visit dim sqs i).get? i = some (visit_square dim sqs i sq) :=
          update_visit_get?_self dim sqs i sq h
        rw [foldl_update_visit_get? dim cs (update_visit dim sqs i) i
          (visit_square dim sqs i sq) hnd' h1]
        simp [hc]
      · have h1 : (update_visit dim sqs c).get? i = some sq := by
          rw [update_visit_get?_other dim sqs c i (fun e => hic e.symm)]
          exact h
        rw [foldl_update_visit_get? dim cs (update_visit dim sqs c) i sq hnd' h1]
        rw [visit_square_congr dim i sq (update_visit_map_value dim sqs c)]
        simp [List.mem_cons, hic]

theorem update_domains_l_get? (dim : Nat) (sqs : List Square) (i : Nat) (sq : Square)
    (h : sqs.get? i = some sq) :
    (update_domains_l dim sqs).get? i = some (visit_square dim sqs i sq) := by
  unfold update_domains_l
  have hi : i ∈ List.range sqs.length := List.mem_range.mpr (get?_some_lt sqs i sq h)
  rw [foldl_update_visit_get? dim (List.range sqs.length) sqs i sq (List.nodup_range _) h,
    if_pos hi]

/-! ### Sorting and dedup preserve the value set -/

theorem mem_insert_sorted (v x : Nat) :
    ∀ l : List Nat, x ∈ insert_sorted v l ↔ x = v ∨ x ∈ l
  | [] => by simp [insert_sorted]
  | a :: rest => by
      by_cases h : v ≤ a
      · simp [insert_sorted, h, List.mem_cons]
      · simp [insert_sorted, h, List.mem_cons, mem_insert_sorted v x rest]
        tauto

theorem mem_sort_nat (x : Nat) : ∀ l : List Nat, x ∈ sort_nat l ↔ x ∈ l
  | [] => Iff.rfl
  | v :: l => by
      show x ∈ insert_sorted v (sort_nat l) ↔ _
      rw [mem_insert_sorted, mem_sort_nat x l]
      simp [List.mem_cons]

theorem mem_dedup_consec (x : Nat) : ∀ l : List Nat, x ∈ dedup_consec l ↔ x ∈ l
  | [] => Iff.rfl
  | [a] => Iff.rfl
  | a :: b :: rest => by
      by_cases h : a = b
      · subst h
        simp [dedup_consec, mem_dedup_consec x (a :: rest), List.mem_cons]
      · simp [dedup_consec, h, mem_dedup_consec x (b :: rest), List.mem_cons]

theorem domain_removals_toFinset (dim : Nat) (sqs : List Square) (c : Nat) :
    (domain_removals dim sqs c).toFinset =
      ((get_column dim sqs (c % dim)).toFinset ∪ (get_row dim sqs (c / dim)).toFinset) ∪
        (get_group dim sqs (c % dim) (c / dim)).toFinset := by
  ext x
  simp [domain_removals, mem_dedup_consec, mem_sort_nat]

/-- C5, as the code actually behaves: `update_domains` clears the domain of
every fixed cell, and for an unfixed cell it subtracts the peer values
(column, row, group) from the cell's previous domain — it does not rebuild
the domain from the full range `{1..N}`. -/
theorem c5_update_domains_subtracts_peers (p : Puzzle) (_hd : 0 < p.dimension)
    (i : Nat) (sq : Square) (h : p.squares.get? i = some sq) :
    p.update_domains.squares.get? i = some
      (if sq.value ≠ 0 then sq.clear_domain
       else ⟨sq.value, sq.domain \
          (((get_column p.dimension p.squares (i % p.dimension)).toFinset ∪
              (get_row p.dimension p.squares (i / p.dimension)).toFinset) ∪
            (get_group p.dimension p.squares (i % p.dimension)
              (i / p.dimension)).toFinset)⟩) := by
  show (update_domains_l p.dimension p.squares).get? i = _
  rw [update_domains_l_get? p.dimension p.squares i sq h]
  congr 1
  unfold visit_square
  by_cases hv : sq.value ≠ 0
  · rw [if_pos hv, if_pos hv]
  · rw [if_neg hv, if_neg hv]
    have h1 := remove_foldl_value (domain_removals p.dimension p.squares i) sq
    have h2 := remove_foldl_domain (domain_removals p.dimension p.squares i) sq
    rw [square_eq_mk _ _ _ h1 h2, domain_removals_toFinset]

/-- Witness for C5's amended theorem at the concrete grid `"0 1 1 0"`:
cell 0 is unfixed with domain `{1, 2}` and its peers contribute `{1}`,
leaving domain `{2}`. -/
theorem c5_update_domains_subtracts_peers_w :
    p_pair.update_domains.squares.get? 0 = some ⟨0, ({2} : Finset Nat)⟩ := by
  have h := c5_update_domains_subtracts_peers p_pair (by decide) 0
    ⟨0, ({1, 2} : Finset Nat)⟩ (by decide)
  rw [h]
  decide

/-! ### Solving an already-filled valid grid -/

theorem reset_domains_map_value (p : Puzzle) :
    p.reset_domains.squares.map Square.value = p.squares.map Square.value := by
  unfold Puzzle.reset_domains
  rw [List.map_map]
  rfl

theorem update_domains_l_all_filled (dim : Nat) (sqs : List Square)
    (hf : ∀ sq ∈ sqs, sq.value ≠ 0) :
    update_domains_l dim sqs = sqs.map Square.clear_domain := by
  apply List.ext_get?
  intro n
  cases h : sqs.get? n with
  | none =>
      have hn : sqs.length ≤ n := List.get?_eq_none.mp h
      have h1 : (update_domains_l dim sqs).get? n = none := by
        apply List.get?_eq_none.mpr
        rw [update_domains_l_length]
        exact hn
      have h2 : (sqs.map Square.clear_domain).get? n = none := by
        apply List.get?_eq_none.mpr
        simpa using hn
      rw [h1, h2]
  | some sq =>
      rw [update_domains_l_get? dim sqs n sq h, get?_map_eq Square.clear_domain sqs n, h]
      have hv0 : sq.value ≠ 0 := hf sq (get?_mem_own sqs n sq h)
      simp [visit_square, hv0]

theorem find_idx_b_eq_none (p : Square → Bool) :
    ∀ l : List Square, (∀ sq ∈ l, p sq = false) → find_idx_b p l = none
  | [], _ => rfl
  | sq :: l, h => by
      unfold find_idx_b
      rw [h sq (List.mem_cons_self sq l),
        find_idx_b_eq_none p l (fun a ha => h a (List.mem_cons_of_mem sq ha))]
      rfl

theorem find_idx_b_ne_none (p : Square → Bool) :
    ∀ (l : List Square) (n : Nat) (a : Square),
      l.get? n = some a → p a = true → find_idx_b p l ≠ none
  | [], n, a, h, _ => by simp [List.get?] at h
  | sq :: l, 0, a, h, hp => by
      have hx : sq = a := by simpa using h
      unfold find_idx_b
      rw [hx, hp]
      simp
  | sq :: l, n + 1, a, h, hp => by
      unfold find_idx_b
      cases hps : p sq with
      | true => simp
      | false =>
          simp only [Bool.false_eq_true, if_false, ne_eq, Option.map_eq_none']
          exact find_idx_b_ne_none p l n a h hp

/-- C6, amended: for a grid all of whose cells are filled with values in
range (`value ≤ N`, forced by the counterexample `"5 1 2 3"`) and on which
`is_valid` holds, `is_solved` is true and `solve` succeeds in one
iteration, leaving every cell's value unchanged. -/
theorem c6_solve_filled_in_range (p : Puzzle)
    (hf : p.all_filled = true)
    (hr : ∀ sq ∈ p.squares, sq.value ≤ p.dimension)
    (hv : p.is_valid = true) :
    p.is_solved = true ∧
    ∀ fuel : Nat, ∃ final : List Square,
      p.solve (fuel + 1) = some (Except.ok (), final) ∧
      final.map Square.value = p.squares.map Square.value := by
  have hrv : p.reset_domains.squares.map Square.value = p.squares.map Square.value :=
    reset_domains_map_value p
  have hfres : ∀ sq ∈ p.reset_domains.squares, sq.value ≠ 0 := by
    intro sq hsq
    unfold Puzzle.reset_domains at hsq
    obtain ⟨sq0, hsq0, rfl⟩ := List.mem_map.mp hsq
    have := (List.all_eq_true.mp hf) sq0 hsq0
    simpa [Square.reset] using this
  have hu : update_domains_l p.dimension p.reset_domains.squares =
      p.reset_domains.squares.map Square.clear_domain :=
    update_domains_l_all_filled p.dimension p.reset_domains.squares hfres
  have humap : (update_domains_l p.dimension p.reset_domains.squares).map Square.value =
      p.squares.map Square.value := by
    rw [update_domains_l_map_value]
    exact hrv
  have hmemu : ∀ sq ∈ update_domains_l p.dimension p.reset_domains.squares,
      sq.domain = ∅ ∧ sq.value ≠ 0 ∧ sq.value ≤ p.dimension := by
    intro sq hsq
    rw [hu] at hsq
    obtain ⟨sq0, hsq0, rfl⟩ := List.mem_map.mp hsq
    refine ⟨rfl, hfres sq0 hsq0, ?_⟩
    unfold Puzzle.reset_domains at hsq0
    obtain ⟨sq1, hsq1, rfl⟩ := List.mem_map.mp hsq0
    simpa [Square.reset, Square.clear_domain] using hr sq1 hsq1
  have hval_u : is_valid_l p.dimension
      (update_domains_l p.dimension p.reset_domains.squares) = true := by
    unfold is_valid_l
    rw [Bool.and_eq_true]
    constructor
    · apply List.all_eq_true.mpr
      intro sq hsq
      obtain ⟨hd0, hv0, hle⟩ := hmemu sq hsq
      simp only [Square.is_valid, decide_eq_true_eq]
      exact Or.inl ⟨Nat.pos_of_ne_zero hv0, hle⟩
    · apply List.all_eq_true.mpr
      intro c hc
      have hv2 : (List.range p.dimension).all (fun counter =>
          all_distinct (get_column p.dimension p.squares counter) &&
          all_distinct (get_row p.dimension p.squares counter) &&
          (let gd := sqrt_floor p.dimension
           all_distinct (get_group p.dimension p.squares (counter % gd * gd)
             (counter / gd * gd)))) = true := by
        have h0 := hv
        unfold Puzzle.is_valid is_valid_l at h0
        rw [Bool.and_eq_true] at h0
        exact h0.2
      have := List.all_eq_true.mp hv2 c hc
      show (all_distinct (get_column p.dimension
          (update_domains_l p.dimension p.reset_domains.squares) c) &&
        all_distinct (get_row p.dimension
          (update_domains_l p.dimension p.reset_domains.squares) c) &&
        all_distinct (get_group p.dimension
          (update_domains_l p.dimension p.reset_domains.squares)
          (c % sqrt_floor p.dimension * sqrt_floor p.dimension)
          (c / sqrt_floor p.dimension * sqrt_floor p.dimension))) = true
      rw [get_column_congr p.dimension c humap, get_row_congr p.dimension c humap,
        get_group_congr p.dimension _ _ humap]
      exact this
  have h1 : find_next_n_domain 1 (update_domains_l p.dimension p.reset_domains.squares)
      = none := by
    apply find_idx_b_eq_none
    intro sq hsq
    obtain ⟨hd0, _, _⟩ := hmemu sq hsq
    simp [Square.get_domain_size, hd0]
  have h2 : find_next_n_domain 2 (update_domains_l p.dimension p.reset_domains.squares)
      = none := by
    apply find_idx_b_eq_none
    intro sq hsq
    obtain ⟨hd0, _, _⟩ := hmemu sq hsq
    simp [Square.get_domain_size, hd0]
  have h3 : find_next_empty_square (update_domains_l p.dimension p.reset_domains.squares)
      = none := by
    apply find_idx_b_eq_none
    intro sq hsq
    obtain ⟨_, hv0, _⟩ := hmemu sq hsq
    simp [hv0]
  have hiter : solve_iter p.dimension p.reset_domains.squares [] =
      LoopRes.ok (update_domains_l p.dimension p.reset_domains.squares) := by
    unfold solve_iter
    simp only [hval_u, if_true]
    unfold phase3
    rw [h1, h2]
    simp only [Option.orElse, h3]
  constructor
  · unfold Puzzle.is_solved
    rw [hv, hf]
    rfl
  · intro fuel
    refine ⟨update_domains_l p.dimension p.reset_domains.squares, ?_, humap⟩
    show solve_loop p.dimension (fuel + 1) p.reset_domains.squares [] = _
    rw [solve_loop, hiter]

/-- Witness for the amended C6 at the already-solved 4x4 grid of the
spec's Scenario A. -/
theorem c6_solve_filled_in_range_w :
    p4.is_solved = true ∧
    ∃ final : List Square,
      p4.solve 1 = some (Except.ok (), final) ∧
      final.map Square.value = p4.squares.map Square.value := by
  have h := c6_solve_filled_in_range p4 (by decide) (by decide) (by decide)
  exact ⟨h.1, h.2 0⟩

/-! ### The backtracking branch of the solve loop -/

theorem phase3_ne_err (sqs : List Square) (hist : List Snapshot) :
    ∀ s, phase3 sqs hist ≠ LoopRes.err s := by
  intro s
  unfold phase3
  split
  · split <;> simp
  · split
    · split <;> simp
    · simp

theorem phase3_cont_of_blank_cell (sqs : List Square) (hist : List Snapshot)
    (n : Nat) (a : Square) (hn : sqs.get? n = some a) (ha : a.value = 0) :
    ∃ s h, phase3 sqs hist = LoopRes.cont s h := by
  unfold phase3
  split
  · split
    · exact ⟨_, _, rfl⟩
    · exact ⟨_, _, rfl⟩
  · split
    · split
      · exact ⟨_, _, rfl⟩
      · exact ⟨_, _, rfl⟩
    · exfalso
      rename_i hor
      have h4 : find_next_empty_square sqs ≠ none :=
        find_idx_b_ne_none _ sqs n a hn (by simp [ha])
      cases hf2 : find_next_n_domain 2 sqs with
      | some j => simp [Option.orElse, hf2] at hor
      | none =>
          rw [hf2] at hor
          simp [Option.orElse] at hor
          exact h4 hor

theorem restore_snapshot_get? (u : List Square) (snap : Snapshot) (sq0 : Square)
    (h : snap.squares.get? snap.index = some sq0) :
    (restore_snapshot u snap).get? snap.index =
      some (sq0.remove_from_domain ((u.getD snap.index default).value)) := by
  unfold restore_snapshot
  rw [h]
  exact set_get?_self _ _ _ (get?_some_lt _ _ _ h)

/-- C3: in an iteration whose propagated grid the validator rejects, the
code pops the top snapshot when one exists — restoring the squares and
removing the value found at the recorded index from that cell's domain —
and then proceeds with the selection phase (never returning the error, and
continuing the loop whenever the snapshot's recorded cell is blank, as it
always is for snapshots the loop pushes); with an empty history it returns
the Invalid error, and the error arises in no other situation. -/
theorem c3_invalid_branch (dim : Nat) (sqs : List Square) (hist : List Snapshot) :
    (is_valid_l dim (update_domains_l dim sqs) = false →
      (hist = [] → solve_iter dim sqs hist = LoopRes.err (update_domains_l dim sqs)) ∧
      (∀ snap rest, hist = snap :: rest →
        solve_iter dim sqs hist =
          phase3 (restore_snapshot (update_domains_l dim sqs) snap) rest ∧
        (∀ s, solve_iter dim sqs hist ≠ LoopRes.err s) ∧
        (snap.index < snap.squares.length →
          (snap.squares.getD snap.index default).value = 0 →
          ∃ s h, solve_iter dim sqs hist = LoopRes.cont s h))) ∧
    (∀ s, solve_iter dim sqs hist = LoopRes.err s →
      is_valid_l dim (update_domains_l dim sqs) = false ∧ hist = [] ∧
      s = update_domains_l dim sqs) := by
  constructor
  · intro hinv
    constructor
    · intro he
      subst he
      simp [solve_iter, hinv]
    · intro snap rest he
      subst he
      have hstep : solve_iter dim sqs (snap :: rest) =
          phase3 (restore_snapshot (update_domains_l dim sqs) snap) rest := by
        simp [solve_iter, hinv]
      refine ⟨hstep, ?_, ?_⟩
      · intro s hc
        rw [hstep] at hc
        exact phase3_ne_err _ _ s hc
      · intro hlt h0
        obtain ⟨sq0, hsq0⟩ := get?_of_lt snap.squares snap.index hlt
        have hval0 : sq0.value = 0 := by
          have hsq0' := hsq0
          rw [List.get?_eq_getElem?] at hsq0'
          have : snap.squares.getD snap.index default = sq0 := by
            simp [List.getD, hsq0']
          rw [← this]
          exact h0
        have hr := restore_snapshot_get? (update_domains_l dim sqs) snap sq0 hsq0
        rw [hstep]
        exact phase3_cont_of_blank_cell _ rest snap.index _ hr
          (by simp [Square.remove_from_domain, hval0])
  · intro s hs
    by_cases hval : is_valid_l dim (update_domains_l dim sqs) = true
    · exfalso
      have : solve_iter dim sqs hist = phase3 (update_domains_l dim sqs) hist := by
        simp [solve_iter, hval]
      rw [this] at hs
      exact phase3_ne_err _ _ s hs
    · have hinv : is_valid_l dim (update_domains_l dim sqs) = false := by
        simpa using hval
      cases hist with
      | nil =>
          have : solve_iter dim sqs [] = LoopRes.err (update_domains_l dim sqs) := by
            simp [solve_iter, hinv]
          rw [this] at hs
          injection hs with hs
          exact ⟨hinv, rfl, hs.symm⟩
      | cons snap rest =>
          exfalso
          have : solve_iter dim sqs (snap :: rest) =
              phase3 (restore_snapshot (update_domains_l dim sqs) snap) rest := by
            simp [solve_iter, hinv]
          rw [this] at hs
          exact phase3_ne_err _ _ s hs

/-- Witness for C3 at a concrete invalid one-cell state: with a snapshot on
the stack the iteration proceeds through the restore path, and with an
empty stack it returns the error. -/
theorem c3_invalid_branch_w :
    solve_iter 1 bad_state [snap_a] =
      phase3 (restore_snapshot (update_domains_l 1 bad_state) snap_a) [] ∧
    solve_iter 1 bad_state [] = LoopRes.err (update_domains_l 1 bad_state) := by
  have h1 := c3_invalid_branch 1 bad_state [snap_a]
  have h2 := c3_invalid_branch 1 bad_state []
  exact ⟨((h1.1 (by decide)).2 snap_a [] rfl).1, (h2.1 (by decide)).1 rfl⟩

/-! ### Construction from token-free text -/

/-- C10: when no token of the input parses as an integer, the string
constructor yields the empty grid of dimension 0, which is valid, solved,
and solved successfully (and untouched) by `solve`. -/
theorem c10_no_tokens_empty_grid (source : String)
    (h : ∀ t ∈ split_space source.toList, parse_usize t = none) :
    Puzzle.read_from_string source = ⟨0, []⟩ ∧
    (Puzzle.read_from_string source).is_valid = true ∧
    (Puzzle.read_from_string source).is_solved = true ∧
    (Puzzle.read_from_string source).solve 1 = some (Except.ok (), []) := by
  have hfm : (split_space source.toList).filterMap parse_usize = [] :=
    filterMap_none parse_usize (split_space source.toList) h
  have hp : Puzzle.read_from_string source = ⟨0, []⟩ := by
    unfold Puzzle.read_from_string
    rw [hfm]
    rfl
  refine ⟨hp, ?_, ?_, ?_⟩ <;> rw [hp] <;> rfl

/-- Witness for C10 at the empty string. -/
theorem c10_no_tokens_empty_grid_w :
    Puzzle.read_from_string empty_str = ⟨0, []⟩ ∧
    (Puzzle.read_from_string empty_str).is_valid = true ∧
    (Puzzle.read_from_string empty_str).is_solved = true ∧
    (Puzzle.read_from_string empty_str).solve 1 = some (Except.ok (), []) :=
  c10_no_tokens_empty_grid empty_str (by decide)

end Sudoku
